import Mathlib

/-!
Shallow embedding of the diamant EAV data layer (src/db.js).

The backing store (better-sqlite3) is modelled as an explicit state record
`DB` holding the four relations as lists in rowid (insertion) order, with
per-relation AUTOINCREMENT counters and a tick clock standing for the
millisecond timestamps produced by `new Date().toISOString()`.

JSON values passed through `JSON.stringify` / `JSON.parse` at the store
boundary are modelled by the inductive type `Value`; that boundary is the
identity on structurally serializable values, so the encoded TEXT column is
modelled as `Option Value` (`none` standing for SQL NULL).
-/

/-- A structurally serializable JavaScript value: null, boolean, number
(modelled here over the integers), string, array, or object with ordered
string keys. -/
inductive Value where
  | null : Value
  | bool : Bool → Value
  | num : Int → Value
  | str : String → Value
  | arr : List Value → Value
  | obj : List (String × Value) → Value

/-- Row of the `tables` relation, also the data carried by a `DataTable`
object (the `db` handle field of the JS object is dropped). -/
structure TableRec where
  id : Nat
  name : String
  createdAt : Nat
  deriving DecidableEq, Repr

/-- Row of the `columns` relation; `options` is stored via
`JSON.stringify` and decoded on every read, which round-trips, so the
decoded value is stored directly. -/
structure ColumnRec where
  id : Nat
  tableId : Nat
  name : String
  type : String
  options : Value
  createdAt : Nat

/-- Row of the `rows` relation. -/
structure RowRec where
  id : Nat
  tableId : Nat
  position : Int
  createdAt : Nat
  deriving DecidableEq, Repr

/-- Row of the `cells` relation: `value` is the TEXT column, `none` for
SQL NULL, `some v` for the JSON encoding of `v`. -/
structure CellRec where
  id : Nat
  rowId : Nat
  columnId : Nat
  value : Option Value
  updatedAt : Nat

/-- The `CellData` object handed back to callers: its `value` field is
`data.value ? JSON.parse(data.value) : null`, so SQL NULL reads as the
JS value null. -/
structure CellObj where
  id : Nat
  rowId : Nat
  columnId : Nat
  value : Value
  updatedAt : Nat

/-- The whole SQLite database: the four relations in rowid order, the
AUTOINCREMENT counters (ids start at 1 and are never reused), and the
clock supplying timestamps. -/
structure DB where
  tables : List TableRec
  columns : List ColumnRec
  rows : List RowRec
  cells : List CellRec
  nextTableId : Nat
  nextColumnId : Nat
  nextRowId : Nat
  nextCellId : Nat
  clock : Nat

/-- The freshly initialized database (`DiamantDB.init` creates the four
empty relations; AUTOINCREMENT ids start at 1). -/
def DB.empty : DB :=
  { tables := [], columns := [], rows := [], cells := []
    nextTableId := 1, nextColumnId := 1, nextRowId := 1, nextCellId := 1
    clock := 0 }

/-- `value !== null && value !== undefined ? JSON.stringify(value) : null`
from `CellData.set`: the JS value null is persisted as SQL NULL. -/
def encVal : Value → Option Value
  | Value.null => none
  | v => some v

/-- `data.value ? JSON.parse(data.value) : null` from `CellData.get`:
SQL NULL decodes to the JS value null. (`JSON.stringify` never yields the
empty string, so truthiness coincides with non-NULL here.) -/
def decVal : Option Value → Value
  | none => Value.null
  | some v => v

/-- View of a stored cell as the `CellData` object built from it. -/
def decodeCell (c : CellRec) : CellObj :=
  { id := c.id, rowId := c.rowId, columnId := c.columnId
    value := decVal c.value, updatedAt := c.updatedAt }

/-- `DataTable.create`: INSERT INTO tables, returning the new object. -/
def DataTable.create (db : DB) (name : String) : TableRec × DB :=
  let t : TableRec := { id := db.nextTableId, name := name, createdAt := db.clock }
  (t, { db with tables := db.tables ++ [t]
                nextTableId := db.nextTableId + 1
                clock := db.clock + 1 })

/-- `DataTable.get`: SELECT * FROM tables WHERE id = ?, null when absent. -/
def DataTable.get (db : DB) (id : Nat) : Option TableRec :=
  db.tables.find? (fun t => t.id == id)

/-- `TableColumn.create`: INSERT INTO columns. -/
def TableColumn.create (db : DB) (tableId : Nat) (name ty : String)
    (options : Value) : ColumnRec × DB :=
  let c : ColumnRec := { id := db.nextColumnId, tableId := tableId, name := name
                         type := ty, options := options, createdAt := db.clock }
  (c, { db with columns := db.columns ++ [c]
                nextColumnId := db.nextColumnId + 1
                clock := db.clock + 1 })

/-- `TableColumn.getByTable`: SELECT * FROM columns WHERE table_id = ?
(no ORDER BY; better-sqlite3 enumerates these rows in rowid order, which
the list order models). -/
def TableColumn.getByTable (db : DB) (tableId : Nat) : List ColumnRec :=
  db.columns.filter (fun c => c.tableId == tableId)

/-- `TableColumn.get`: SELECT * FROM columns WHERE id = ?. -/
def TableColumn.get (db : DB) (id : Nat) : Option ColumnRec :=
  db.columns.find? (fun c => c.id == id)

/-- `TableRow.create`: when position is null it defaults to
SELECT COUNT(*) FROM rows WHERE table_id = ?, then INSERT INTO rows. -/
def TableRow.create (db : DB) (tableId : Nat) (position : Option Int) :
    RowRec × DB :=
  let pos : Int := match position with
    | none => ((db.rows.filter (fun r => r.tableId == tableId)).length : Int)
    | some p => p
  let r : RowRec := { id := db.nextRowId, tableId := tableId, position := pos
                      createdAt := db.clock }
  (r, { db with rows := db.rows ++ [r]
                nextRowId := db.nextRowId + 1
                clock := db.clock + 1 })

/-- `TableRow.getByTable`: SELECT * FROM rows WHERE table_id = ?
ORDER BY position. -/
def TableRow.getByTable (db : DB) (tableId : Nat) : List RowRec :=
  (db.rows.filter (fun r => r.tableId == tableId)).mergeSort
    (fun a b => a.position ≤ b.position)

/-- `TableRow.get`: SELECT * FROM rows WHERE id = ?. -/
def TableRow.get (db : DB) (id : Nat) : Option RowRec :=
  db.rows.find? (fun r => r.id == id)

/-- Predicate matching the (row_id, column_id) key of a cell. -/
def cellKey (rowId columnId : Nat) (c : CellRec) : Bool :=
  c.rowId == rowId && c.columnId == columnId

/-- `CellData.set`: INSERT INTO cells ... ON CONFLICT(row_id, column_id)
DO UPDATE SET value, updated_at — when the key is already present the
existing row is updated in place (same id, same rowid), otherwise a fresh
row is inserted; then the cell is read back by key. -/
def CellData.set (db : DB) (rowId columnId : Nat) (value : Value) :
    CellObj × DB :=
  let valueStr := encVal value
  let hit := db.cells.any (cellKey rowId columnId)
  let cells' :=
    if hit then
      db.cells.map (fun c =>
        if cellKey rowId columnId c then
          { c with value := valueStr, updatedAt := db.clock }
        else c)
    else
      db.cells ++ [{ id := db.nextCellId, rowId := rowId, columnId := columnId
                     value := valueStr, updatedAt := db.clock }]
  let db' : DB :=
    { db with cells := cells'
              nextCellId := if hit then db.nextCellId else db.nextCellId + 1
              clock := db.clock + 1 }
  let obj := match db'.cells.find? (cellKey rowId columnId) with
    | some c => decodeCell c
    -- unreachable: the upserted cell is always found
    | none => { id := 0, rowId := rowId, columnId := columnId
                value := Value.null, updatedAt := 0 }
  (obj, db')

/-- `CellData.get`: SELECT * FROM cells WHERE row_id = ? AND
column_id = ?, null when absent. -/
def CellData.get (db : DB) (rowId columnId : Nat) : Option CellObj :=
  (db.cells.find? (cellKey rowId columnId)).map decodeCell

/-- The expression `cell ? cell.value : null` used by `getData` for each
(row, column) pair. -/
def projectCell (db : DB) (rowId columnId : Nat) : Value :=
  match CellData.get db rowId columnId with
  | some cell => cell.value
  | none => Value.null

/-- JavaScript object property assignment `o[k] = v`: overwrites in place
when the key exists (keeping its position), otherwise appends. -/
def objSet (o : List (String × Value)) (k : String) (v : Value) :
    List (String × Value) :=
  if o.any (fun p => p.1 == k) then
    o.map (fun p => if p.1 == k then (k, v) else p)
  else o ++ [(k, v)]

/-- One record of `getData`: starts from the metadata fields _rowId and
_position, then assigns one field per column in iteration order. -/
def recordFor (db : DB) (cols : List ColumnRec) (row : RowRec) :
    List (String × Value) :=
  cols.foldl (fun acc c => objSet acc c.name (projectCell db row.id c.id))
    [("_rowId", Value.num row.id), ("_position", Value.num row.position)]

/-- `DataTable.getData`: one record per row of `getRows()`, fields per
`getColumns()`. -/
def DataTable.getData (db : DB) (tableId : Nat) :
    List (List (String × Value)) :=
  (TableRow.getByTable db tableId).map
    (recordFor db (TableColumn.getByTable db tableId))

/-- `DataTable.delete`: DELETE FROM tables WHERE id = ?; the schema's
ON DELETE CASCADE clauses (foreign key enforcement is on by default in
better-sqlite3) remove the table's columns and rows, and in turn every
cell owned by one of those rows or columns. -/
def DataTable.delete (db : DB) (tableId : Nat) : DB :=
  let deadRow := fun (rid : Nat) =>
    db.rows.any (fun r => r.id == rid && r.tableId == tableId)
  let deadCol := fun (cid : Nat) =>
    db.columns.any (fun c => c.id == cid && c.tableId == tableId)
  { db with
    tables := db.tables.filter (fun t => !(t.id == tableId))
    columns := db.columns.filter (fun c => !(c.tableId == tableId))
    rows := db.rows.filter (fun r => !(r.tableId == tableId))
    cells := db.cells.filter (fun c => !(deadRow c.rowId || deadCol c.columnId)) }

/-!
Helper lemmas about the cell upsert.
-/

lemma decVal_encVal (v : Value) : decVal (encVal v) = v := by
  cases v <;> rfl

lemma cellKey_iff {rid cid : Nat} {c : CellRec} :
    cellKey rid cid c = true ↔ c.rowId = rid ∧ c.columnId = cid := by
  simp [cellKey]

/-- The upsert's in-place update does not change a cell's key. -/
lemma cellKey_update (rid cid : Nat) (w : Option Value) (t : Nat) (c : CellRec) :
    cellKey rid cid { c with value := w, updatedAt := t } = cellKey rid cid c := by
  simp [cellKey]

lemma set_update_comp (db : DB) (rid cid : Nat) (v : Value) :
    (cellKey rid cid ∘ fun c =>
        if cellKey rid cid c then
          { c with value := encVal v, updatedAt := db.clock }
        else c) = cellKey rid cid := by
  funext c
  by_cases h : cellKey rid cid c = true <;> simp [h, cellKey_update]

/-- State shape of `CellData.set` when the key is already present. -/
lemma set_cells_of_hit (db : DB) (rid cid : Nat) (v : Value)
    (h : db.cells.any (cellKey rid cid) = true) :
    (CellData.set db rid cid v).2.cells = db.cells.map (fun c =>
      if cellKey rid cid c then
        { c with value := encVal v, updatedAt := db.clock }
      else c) := by
  simp [CellData.set, h]

/-- State shape of `CellData.set` when the key is absent. -/
lemma set_cells_of_miss (db : DB) (rid cid : Nat) (v : Value)
    (h : ¬ db.cells.any (cellKey rid cid) = true) :
    (CellData.set db rid cid v).2.cells = db.cells ++
      [{ id := db.nextCellId, rowId := rid, columnId := cid
         value := encVal v, updatedAt := db.clock }] := by
  simp [CellData.set, h]

lemma set_clock (db : DB) (rid cid : Nat) (v : Value) :
    (CellData.set db rid cid v).2.clock = db.clock + 1 := rfl

/-- After an upsert, looking up the key finds a cell carrying the encoded
value and the write timestamp. -/
lemma set_cells_find? (db : DB) (rid cid : Nat) (v : Value) :
    ∃ c : CellRec,
      (CellData.set db rid cid v).2.cells.find? (cellKey rid cid) = some c ∧
      c.rowId = rid ∧ c.columnId = cid ∧
      c.value = encVal v ∧ c.updatedAt = db.clock := by
  by_cases h : db.cells.any (cellKey rid cid) = true
  · rw [set_cells_of_hit db rid cid v h, List.find?_map, set_update_comp]
    obtain ⟨c0, hc0mem, hc0key⟩ := List.any_eq_true.mp h
    obtain ⟨c1, hc1⟩ := Option.isSome_iff_exists.mp
      (List.find?_isSome.mpr ⟨c0, hc0mem, hc0key⟩)
    have hkey1 : cellKey rid cid c1 = true := List.find?_some hc1
    refine ⟨{ c1 with value := encVal v, updatedAt := db.clock },
      by rw [hc1]; simp [hkey1], ?_, ?_, rfl, rfl⟩
    · exact (cellKey_iff.mp hkey1).1
    · exact (cellKey_iff.mp hkey1).2
  · rw [set_cells_of_miss db rid cid v h, List.find?_append]
    have hnone : db.cells.find? (cellKey rid cid) = none :=
      List.find?_eq_none.mpr (fun x hx hpx => h (List.any_eq_true.mpr ⟨x, hx, hpx⟩))
    refine ⟨{ id := db.nextCellId, rowId := rid, columnId := cid
              value := encVal v, updatedAt := db.clock }, ?_, rfl, rfl, rfl, rfl⟩
    rw [hnone]
    simp [List.find?, cellKey]

/-- The object returned by `CellData.set` is the decoded read-back of the
cell found under the key. -/
lemma set_fst_eq (db : DB) (rid cid : Nat) (v : Value) {c : CellRec}
    (h : (CellData.set db rid cid v).2.cells.find? (cellKey rid cid) = some c) :
    (CellData.set db rid cid v).1 = decodeCell c := by
  have h2 := h
  simp only [CellData.set] at h2 ⊢
  rw [h2]

/-- After an upsert, the number of cells stored under the key is one when
none was stored before, and is unchanged otherwise. -/
lemma set_filter_count (db : DB) (rid cid : Nat) (v : Value) :
    ((CellData.set db rid cid v).2.cells.filter (cellKey rid cid)).length =
      max 1 (db.cells.filter (cellKey rid cid)).length := by
  by_cases h : db.cells.any (cellKey rid cid) = true
  · rw [set_cells_of_hit db rid cid v h, List.filter_map, set_update_comp,
      List.length_map]
    obtain ⟨c0, hc0mem, hc0key⟩ := List.any_eq_true.mp h
    have hpos : 1 ≤ (db.cells.filter (cellKey rid cid)).length := by
      have : c0 ∈ db.cells.filter (cellKey rid cid) :=
        List.mem_filter.mpr ⟨hc0mem, hc0key⟩
      exact List.length_pos.mpr (fun hnil => by simp [hnil] at this)
    omega
  · rw [set_cells_of_miss db rid cid v h, List.filter_append]
    have hnil : db.cells.filter (cellKey rid cid) = [] :=
      List.filter_eq_nil_iff.mpr
        (fun x hx hpx => h (List.any_eq_true.mpr ⟨x, hx, hpx⟩))
    rw [hnil]
    simp [cellKey]

/-- After an upsert of `v`, every stored cell under the key carries the
encoding of `v`. -/
lemma set_matching_value (db : DB) (rid cid : Nat) (v : Value) :
    ∀ c ∈ (CellData.set db rid cid v).2.cells, cellKey rid cid c = true →
      c.value = encVal v := by
  intro c hc hkey
  by_cases h : db.cells.any (cellKey rid cid) = true
  · rw [set_cells_of_hit db rid cid v h] at hc
    obtain ⟨c0, hc0, rfl⟩ := List.mem_map.mp hc
    by_cases h0 : cellKey rid cid c0 = true
    · simp [h0]
    · rw [if_neg h0] at hkey ⊢
      exact absurd hkey h0
  · rw [set_cells_of_miss db rid cid v h] at hc
    rcases List.mem_append.mp hc with hmem | hmem
    · exact absurd (List.any_eq_true.mpr ⟨c, hmem, hkey⟩) h
    · rw [List.mem_singleton.mp hmem]

/-- C2: for every serializable value v and any (row, column) pair,
setCell(columnId, v) followed by getCell(columnId) returns a Cell whose
value is deep-equal to v: the round trip through the store's encoding is
the identity. -/
theorem setCell_getCell_roundtrip (db : DB) (rid cid : Nat) (v : Value) :
    ∃ cell : CellObj,
      CellData.get (CellData.set db rid cid v).2 rid cid = some cell ∧
      cell.value = v := by
  obtain ⟨c, hfind, hrow, hcol, hval, hupd⟩ := set_cells_find? db rid cid v
  refine ⟨decodeCell c, ?_, ?_⟩
  · simp [CellData.get, hfind]
  · simp [decodeCell, hval, decVal_encVal]

/-- C3: setCell(c, v1) then setCell(c, v2) on the same (row, column) pair
leaves exactly one stored Cell for that pair, holding the encoding of v2;
the second write updates in place — the total number of stored cells and
the cell's id are unchanged — and its updatedAt is advanced past the
first write's. -/
theorem setCell_twice_upsert (db : DB) (rid cid : Nat) (v1 v2 : Value)
    (huniq : (db.cells.filter (cellKey rid cid)).length ≤ 1) :
    (((CellData.set (CellData.set db rid cid v1).2 rid cid v2).2.cells.filter
        (cellKey rid cid)).length = 1) ∧
    (∀ c ∈ (CellData.set (CellData.set db rid cid v1).2 rid cid v2).2.cells,
        cellKey rid cid c = true → c.value = encVal v2) ∧
    (CellData.set (CellData.set db rid cid v1).2 rid cid v2).2.cells.length =
      (CellData.set db rid cid v1).2.cells.length ∧
    (CellData.set (CellData.set db rid cid v1).2 rid cid v2).1.id =
      (CellData.set db rid cid v1).1.id ∧
    (CellData.set db rid cid v1).1.updatedAt <
      (CellData.set (CellData.set db rid cid v1).2 rid cid v2).1.updatedAt := by
  obtain ⟨c1, hc1, hr1, hcol1, hval1, hupd1⟩ := set_cells_find? db rid cid v1
  have hkey1 : cellKey rid cid c1 = true := List.find?_some hc1
  have hit2 : (CellData.set db rid cid v1).2.cells.any (cellKey rid cid) = true :=
    List.any_eq_true.mpr ⟨c1, List.mem_of_find?_eq_some hc1, hkey1⟩
  have hcount1 :
      ((CellData.set db rid cid v1).2.cells.filter (cellKey rid cid)).length = 1 := by
    rw [set_filter_count]
    omega
  have hfind2 :
      (CellData.set (CellData.set db rid cid v1).2 rid cid v2).2.cells.find?
        (cellKey rid cid) =
      some { c1 with value := encVal v2
                     updatedAt := (CellData.set db rid cid v1).2.clock } := by
    rw [set_cells_of_hit _ _ _ _ hit2, List.find?_map, set_update_comp, hc1,
      Option.map_some']
    simp [hkey1]
  refine ⟨?_, set_matching_value _ rid cid v2, ?_, ?_, ?_⟩
  · rw [set_filter_count, hcount1]
    simp
  · rw [set_cells_of_hit _ _ _ _ hit2, List.length_map]
  · rw [set_fst_eq _ rid cid v2 hfind2, set_fst_eq db rid cid v1 hc1]
    simp [decodeCell]
  · rw [set_fst_eq _ rid cid v2 hfind2, set_fst_eq db rid cid v1 hc1]
    simp [decodeCell, hupd1, set_clock]

/-- Witness for C3 at a concrete input: two writes to the same pair on the
fresh database. -/
theorem setCell_twice_upsert_witness :
    (DB.empty.cells.filter (cellKey 1 1)).length ≤ 1 ∧
    ((((CellData.set (CellData.set DB.empty 1 1 (Value.num 1)).2 1 1
        (Value.num 2)).2.cells.filter (cellKey 1 1)).length = 1) ∧
    (∀ c ∈ (CellData.set (CellData.set DB.empty 1 1 (Value.num 1)).2 1 1
        (Value.num 2)).2.cells,
        cellKey 1 1 c = true → c.value = encVal (Value.num 2)) ∧
    (CellData.set (CellData.set DB.empty 1 1 (Value.num 1)).2 1 1
        (Value.num 2)).2.cells.length =
      (CellData.set DB.empty 1 1 (Value.num 1)).2.cells.length ∧
    (CellData.set (CellData.set DB.empty 1 1 (Value.num 1)).2 1 1
        (Value.num 2)).1.id =
      (CellData.set DB.empty 1 1 (Value.num 1)).1.id ∧
    (CellData.set DB.empty 1 1 (Value.num 1)).1.updatedAt <
      (CellData.set (CellData.set DB.empty 1 1 (Value.num 1)).2 1 1
        (Value.num 2)).1.updatedAt) :=
  ⟨by simp [DB.empty], setCell_twice_upsert DB.empty 1 1 (Value.num 1)
    (Value.num 2) (by simp [DB.empty])⟩

/-- C8: a Cell explicitly set to null and a pair never set both project to
null in getData's per-field projection, yet after setCell(columnId, null)
a Cell exists for the pair (getCell returns it) while with no set the
getCell lookup finds nothing. -/
theorem null_cell_vs_missing (db : DB) (rid cid : Nat)
    (h : CellData.get db rid cid = none) :
    (∃ cell : CellObj,
        CellData.get (CellData.set db rid cid Value.null).2 rid cid =
          some cell ∧ cell.value = Value.null) ∧
    projectCell (CellData.set db rid cid Value.null).2 rid cid = Value.null ∧
    projectCell db rid cid = Value.null := by
  obtain ⟨c, hfind, hrow, hcol, hval, hupd⟩ := set_cells_find? db rid cid Value.null
  have hget : CellData.get (CellData.set db rid cid Value.null).2 rid cid =
      some (decodeCell c) := by
    simp [CellData.get, hfind]
  have hv : (decodeCell c).value = Value.null := by
    simp [decodeCell, hval, decVal_encVal]
  exact ⟨⟨decodeCell c, hget, hv⟩, by simp [projectCell, hget, hv],
    by simp [projectCell, h]⟩

/-- Witness for C8 on the fresh database, where no cell was ever set. -/
theorem null_cell_vs_missing_witness :
    CellData.get DB.empty 1 1 = none ∧
    ((∃ cell : CellObj,
        CellData.get (CellData.set DB.empty 1 1 Value.null).2 1 1 =
          some cell ∧ cell.value = Value.null) ∧
    projectCell (CellData.set DB.empty 1 1 Value.null).2 1 1 = Value.null ∧
    projectCell DB.empty 1 1 = Value.null) :=
  ⟨rfl, null_cell_vs_missing DB.empty 1 1 rfl⟩

/-- C9: get-by-id on an id bound to no Table, Column, Row, or (row, column)
key returns the explicit not-found result `none`, never a failure: the
lookups are total functions into an option type. -/
theorem get_missing_id (db : DB) (i j k rid cid : Nat)
    (ht : ∀ t ∈ db.tables, t.id ≠ i)
    (hc : ∀ c ∈ db.columns, c.id ≠ j)
    (hr : ∀ r ∈ db.rows, r.id ≠ k)
    (hcell : ∀ c ∈ db.cells, ¬(c.rowId = rid ∧ c.columnId = cid)) :
    DataTable.get db i = none ∧ TableColumn.get db j = none ∧
    TableRow.get db k = none ∧ CellData.get db rid cid = none := by
  refine ⟨?_, ?_, ?_, ?_⟩
  · exact List.find?_eq_none.mpr (fun t htm => by simpa using ht t htm)
  · exact List.find?_eq_none.mpr (fun c hcm => by simpa using hc c hcm)
  · exact List.find?_eq_none.mpr (fun r hrm => by simpa using hr r hrm)
  · have : db.cells.find? (cellKey rid cid) = none :=
      List.find?_eq_none.mpr
        (fun c hcm hk => hcell c hcm (cellKey_iff.mp hk))
    simp [CellData.get, this]

/-- Witness for C9: every lookup misses on the fresh empty database. -/
theorem get_missing_id_witness :
    DataTable.get DB.empty 1 = none ∧ TableColumn.get DB.empty 1 = none ∧
    TableRow.get DB.empty 1 = none ∧ CellData.get DB.empty 1 1 = none :=
  get_missing_id DB.empty 1 1 1 1 1 (by simp [DB.empty]) (by simp [DB.empty])
    (by simp [DB.empty]) (by simp [DB.empty])

/-- C6: addRow with the position argument omitted assigns the new row a
position equal to the current count of rows of that table; in particular
three such calls on a table with no rows yield positions 0, 1, 2. -/
theorem addRow_default_position (db : DB) (tid : Nat) :
    ((TableRow.create db tid none).1.position =
      ((db.rows.filter (fun r => r.tableId == tid)).length : Int)) ∧
    ((db.rows.filter (fun r => r.tableId == tid)).length = 0 →
      (TableRow.create db tid none).1.position = 0 ∧
      (TableRow.create (TableRow.create db tid none).2 tid none).1.position = 1 ∧
      (TableRow.create (TableRow.create
        (TableRow.create db tid none).2 tid none).2 tid none).1.position = 2) := by
  refine ⟨rfl, fun h0 => ⟨?_, ?_, ?_⟩⟩
  · simp [TableRow.create, h0]
  · simp [TableRow.create, h0]
  · simp [TableRow.create, h0]

/-- Witness for C6: three default-position addRow calls on the fresh
database. -/
theorem addRow_default_position_witness :
    (DB.empty.rows.filter (fun r => r.tableId == 1)).length = 0 ∧
    ((TableRow.create DB.empty 1 none).1.position = 0 ∧
    (TableRow.create (TableRow.create DB.empty 1 none).2 1 none).1.position = 1 ∧
    (TableRow.create (TableRow.create
      (TableRow.create DB.empty 1 none).2 1 none).2 1 none).1.position = 2) :=
  ⟨rfl, (addRow_default_position DB.empty 1).2 rfl⟩

/-!
Reachable store states: the operation surface of the data layer as a step
relation, starting from the freshly initialized database.
-/

/-- SQLite foreign-key check for a parent table id (foreign keys are
enforced by default under better-sqlite3). -/
def tableExists (db : DB) (tid : Nat) : Bool :=
  db.tables.any (fun t => t.id == tid)

/-- Foreign-key check for a parent row id. -/
def rowExists (db : DB) (rid : Nat) : Bool :=
  db.rows.any (fun r => r.id == rid)

/-- Foreign-key check for a parent column id. -/
def columnExists (db : DB) (cid : Nat) : Bool :=
  db.columns.any (fun c => c.id == cid)

/-- One mutating operation of the data layer; creations require their
parent to exist, as the store's foreign keys enforce. -/
inductive Step : DB → DB → Prop where
  | createTable (db : DB) (name : String) :
      Step db (DataTable.create db name).2
  | addColumn (db : DB) (tid : Nat) (name ty : String) (options : Value)
      (h : tableExists db tid = true) :
      Step db (TableColumn.create db tid name ty options).2
  | addRow (db : DB) (tid : Nat) (pos : Option Int)
      (h : tableExists db tid = true) :
      Step db (TableRow.create db tid pos).2
  | setCell (db : DB) (rid cid : Nat) (v : Value)
      (hr : rowExists db rid = true) (hc : columnExists db cid = true) :
      Step db (CellData.set db rid cid v).2
  | deleteTable (db : DB) (tid : Nat) :
      Step db (DataTable.delete db tid)

/-- Store states reachable from the freshly initialized database. -/
inductive Reachable : DB → Prop where
  | init : Reachable DB.empty
  | step {db db' : DB} : Reachable db → Step db db' → Reachable db'

/-- At most one stored cell per (rowId, columnId) pair. -/
def cellsUnique (db : DB) : Prop :=
  db.cells.Pairwise (fun a b => ¬(a.rowId = b.rowId ∧ a.columnId = b.columnId))

lemma cellsUnique_set (db : DB) (rid cid : Nat) (v : Value)
    (h : cellsUnique db) : cellsUnique (CellData.set db rid cid v).2 := by
  by_cases hit : db.cells.any (cellKey rid cid) = true
  · rw [cellsUnique, set_cells_of_hit db rid cid v hit]
    refine List.Pairwise.map _ (fun a b hab => ?_) h
    by_cases ha : cellKey rid cid a = true <;>
      by_cases hb : cellKey rid cid b = true <;>
      simpa [ha, hb] using hab
  · rw [cellsUnique, set_cells_of_miss db rid cid v hit]
    refine List.pairwise_append.mpr ⟨h, by simp, ?_⟩
    intro a ha b hb hkey
    rw [List.mem_singleton.mp hb] at hkey
    exact hit (List.any_eq_true.mpr
      ⟨a, ha, cellKey_iff.mpr ⟨hkey.1, hkey.2⟩⟩)

lemma cellsUnique_delete (db : DB) (tid : Nat)
    (h : cellsUnique db) : cellsUnique (DataTable.delete db tid) := by
  have : (DataTable.delete db tid).cells.Sublist db.cells := by
    simp only [DataTable.delete]
    exact List.filter_sublist _
  exact List.Pairwise.sublist this h

/-- C4: in every reachable store state, at most one Cell exists per
(rowId, columnId) pair; the uniqueness invariant is preserved by every
operation, including repeated set calls on the same pair. -/
theorem reachable_cellsUnique (db : DB) (h : Reachable db) :
    cellsUnique db := by
  induction h with
  | init => simp [cellsUnique, DB.empty]
  | step _ hs ih =>
    cases hs with
    | createTable name => exact ih
    | addColumn tid name ty options h => exact ih
    | addRow tid pos h => exact ih
    | setCell rid cid v hr hc => exact cellsUnique_set _ rid cid v ih
    | deleteTable tid => exact cellsUnique_delete _ tid ih

/-- A concrete store built by the operation surface: one table, one
column, one row, one cell. -/
def wdb1 : DB := (DataTable.create DB.empty "Users").2

def wdb2 : DB := (TableColumn.create wdb1 1 "Name" "text" (Value.obj [])).2

def wdb3 : DB := (TableRow.create wdb2 1 none).2

def wdb4 : DB := (CellData.set wdb3 1 1 (Value.str "Alice")).2

lemma wdb4_reachable : Reachable wdb4 :=
  Reachable.step
    (Reachable.step
      (Reachable.step
        (Reachable.step Reachable.init (Step.createTable DB.empty "Users"))
        (Step.addColumn wdb1 1 "Name" "text" (Value.obj []) rfl))
      (Step.addRow wdb2 1 none rfl))
    (Step.setCell wdb3 1 1 (Value.str "Alice") rfl rfl)

/-- Witness for C4 at a concrete reachable state holding one cell. -/
theorem reachable_cellsUnique_witness : cellsUnique wdb4 :=
  reachable_cellsUnique wdb4 wdb4_reachable

/-!
Creation order of columns in reachable states.
-/

/-- Columns are stored in strictly ascending id order (ids are assigned by
AUTOINCREMENT in creation order), all below the next id to be assigned. -/
def columnsOrdered (db : DB) : Prop :=
  db.columns.Pairwise (fun a b => a.id < b.id) ∧
  ∀ c ∈ db.columns, c.id < db.nextColumnId

lemma reachable_columnsOrdered (db : DB) (h : Reachable db) :
    columnsOrdered db := by
  induction h with
  | init => exact ⟨List.Pairwise.nil, by simp [DB.empty]⟩
  | step _ hs ih =>
    cases hs with
    | createTable name => exact ih
    | addColumn tid name ty options h =>
      refine ⟨List.pairwise_append.mpr ⟨ih.1, by simp, ?_⟩, ?_⟩
      · intro a ha b hb
        rw [List.mem_singleton.mp hb]
        exact ih.2 a ha
      · intro c hc
        rcases List.mem_append.mp hc with hm | hm
        · exact Nat.lt_succ_of_lt (ih.2 c hm)
        · rw [List.mem_singleton.mp hm]
          exact Nat.lt_succ_self _
    | addRow tid pos h => exact ih
    | setCell rid cid v hr hc => exact ih
    | deleteTable tid =>
      refine ⟨List.Pairwise.sublist (List.filter_sublist _) ih.1, ?_⟩
      intro c hc
      exact ih.2 c (List.mem_of_mem_filter hc)

/-- C7: in every reachable state, getColumns() returns exactly the columns
belonging to the table, listed in creation order (strictly ascending
AUTOINCREMENT ids). -/
theorem getColumns_creation_order (db : DB) (tid : Nat) (h : Reachable db) :
    ((TableColumn.getByTable db tid).map (fun c => c.id)).Pairwise (· < ·) ∧
    ∀ c, c ∈ TableColumn.getByTable db tid ↔
      c ∈ db.columns ∧ c.tableId = tid := by
  constructor
  · exact List.Pairwise.map _ (fun a b hab => hab)
      (List.Pairwise.sublist (List.filter_sublist _)
        (reachable_columnsOrdered db h).1)
  · intro c
    simp [TableColumn.getByTable, List.mem_filter]

/-- Witness for C7 at a concrete reachable state. -/
theorem getColumns_creation_order_witness :
    (((TableColumn.getByTable wdb4 1).map (fun c => c.id)).Pairwise (· < ·) ∧
    ∀ c, c ∈ TableColumn.getByTable wdb4 1 ↔
      c ∈ wdb4.columns ∧ c.tableId = 1) :=
  getColumns_creation_order wdb4 1 wdb4_reachable

/-- C5: deleting a Table cascades: afterwards the table id, every column
id of the table, every row id of the table, and every (row, column) cell
key owned by one of its rows or columns all look up to not-found. -/
theorem delete_cascades (db : DB) (tid : Nat)
    (hcolIds : (db.columns.map (fun c => c.id)).Nodup)
    (hrowIds : (db.rows.map (fun r => r.id)).Nodup) :
    DataTable.get (DataTable.delete db tid) tid = none ∧
    (∀ c ∈ db.columns, c.tableId = tid →
      TableColumn.get (DataTable.delete db tid) c.id = none) ∧
    (∀ r ∈ db.rows, r.tableId = tid →
      TableRow.get (DataTable.delete db tid) r.id = none) ∧
    (∀ r ∈ db.rows, r.tableId = tid → ∀ cid,
      CellData.get (DataTable.delete db tid) r.id cid = none) ∧
    (∀ c ∈ db.columns, c.tableId = tid → ∀ rid,
      CellData.get (DataTable.delete db tid) rid c.id = none) := by
  refine ⟨?_, ?_, ?_, ?_, ?_⟩
  · apply List.find?_eq_none.mpr
    intro t ht
    simp only [DataTable.delete] at ht
    have := (List.mem_filter.mp ht).2
    simpa using this
  · intro c hc hctid
    apply List.find?_eq_none.mpr
    intro c' hc'
    simp only [DataTable.delete] at hc'
    obtain ⟨hc'mem, hc'keep⟩ := List.mem_filter.mp hc'
    intro hbeq
    have hid : c'.id = c.id := by simpa using hbeq
    have : c' = c := List.inj_on_of_nodup_map hcolIds hc'mem hc hid
    rw [this, hctid] at hc'keep
    simp at hc'keep
  · intro r hr hrtid
    apply List.find?_eq_none.mpr
    intro r' hr'
    simp only [DataTable.delete] at hr'
    obtain ⟨hr'mem, hr'keep⟩ := List.mem_filter.mp hr'
    intro hbeq
    have hid : r'.id = r.id := by simpa using hbeq
    have : r' = r := List.inj_on_of_nodup_map hrowIds hr'mem hr hid
    rw [this, hrtid] at hr'keep
    simp at hr'keep
  · intro r hr hrtid cid
    have : (DataTable.delete db tid).cells.find? (cellKey r.id cid) = none := by
      apply List.find?_eq_none.mpr
      intro cl hcl
      simp only [DataTable.delete] at hcl
      obtain ⟨hclmem, hclkeep⟩ := List.mem_filter.mp hcl
      intro hkey
      obtain ⟨hkr, hkc⟩ := cellKey_iff.mp hkey
      have : db.rows.any (fun r' => r'.id == cl.rowId && r'.tableId == tid)
          = true :=
        List.any_eq_true.mpr ⟨r, hr, by simp [hkr, hrtid]⟩
      simp [this] at hclkeep
    simp [CellData.get, this]
  · intro c hc hctid rid
    have : (DataTable.delete db tid).cells.find? (cellKey rid c.id) = none := by
      apply List.find?_eq_none.mpr
      intro cl hcl
      simp only [DataTable.delete] at hcl
      obtain ⟨hclmem, hclkeep⟩ := List.mem_filter.mp hcl
      intro hkey
      obtain ⟨hkr, hkc⟩ := cellKey_iff.mp hkey
      have : db.columns.any (fun c' => c'.id == cl.columnId && c'.tableId == tid)
          = true :=
        List.any_eq_true.mpr ⟨c, hc, by simp [hkc, hctid]⟩
      simp [this] at hclkeep
    simp [CellData.get, this]

/-- Witness for C5 at the concrete store wdb4 (one table with a column, a
row, and a cell), deleting its only table. -/
theorem delete_cascades_witness :
    (wdb4.columns.map (fun c => c.id)).Nodup ∧
    (wdb4.rows.map (fun r => r.id)).Nodup ∧
    (DataTable.get (DataTable.delete wdb4 1) 1 = none ∧
    (∀ c ∈ wdb4.columns, c.tableId = 1 →
      TableColumn.get (DataTable.delete wdb4 1) c.id = none) ∧
    (∀ r ∈ wdb4.rows, r.tableId = 1 →
      TableRow.get (DataTable.delete wdb4 1) r.id = none) ∧
    (∀ r ∈ wdb4.rows, r.tableId = 1 → ∀ cid,
      CellData.get (DataTable.delete wdb4 1) r.id cid = none) ∧
    (∀ c ∈ wdb4.columns, c.tableId = 1 → ∀ rid,
      CellData.get (DataTable.delete wdb4 1) rid c.id = none)) :=
  ⟨by simp [wdb4, wdb3, wdb2, wdb1, CellData.set, TableRow.create,
      TableColumn.create, DataTable.create, DB.empty],
   by simp [wdb4, wdb3, wdb2, wdb1, CellData.set, TableRow.create,
      TableColumn.create, DataTable.create, DB.empty],
   delete_cascades wdb4 1
    (by simp [wdb4, wdb3, wdb2, wdb1, CellData.set, TableRow.create,
      TableColumn.create, DataTable.create, DB.empty])
    (by simp [wdb4, wdb3, wdb2, wdb1, CellData.set, TableRow.create,
      TableColumn.create, DataTable.create, DB.empty])⟩

/-!
Structure of getData records.
-/

/-- Assigning a fresh key appends the field. -/
lemma objSet_append (o : List (String × Value)) (k : String) (v : Value)
    (h : ∀ p ∈ o, p.1 ≠ k) : objSet o k v = o ++ [(k, v)] := by
  have hany : o.any (fun p => p.1 == k) = false := by
    rw [List.any_eq_false]
    intro p hp
    simpa using h p hp
  simp [objSet, hany]

/-- With pairwise distinct column names, none colliding with the fields
already present, the field-assignment fold is a plain append. -/
lemma foldl_objSet_of_disjoint (g : ColumnRec → Value) :
    ∀ (cols : List ColumnRec) (init : List (String × Value)),
      (cols.map (fun c => c.name)).Nodup →
      (∀ c ∈ cols, ∀ p ∈ init, p.1 ≠ c.name) →
      cols.foldl (fun acc c => objSet acc c.name (g c)) init =
        init ++ cols.map (fun c => (c.name, g c)) := by
  intro cols
  induction cols with
  | nil => intro init _ _; simp
  | cons c cs ih =>
    intro init hnodup hdisj
    simp only [List.map_cons, List.nodup_cons] at hnodup
    have hd : ∀ c' ∈ cs, ∀ p ∈ init ++ [(c.name, g c)], p.1 ≠ c'.name := by
      intro c' hc' p hp
      rcases List.mem_append.mp hp with hm | hm
      · exact hdisj c' (List.mem_cons_of_mem c hc') p hm
      · rw [List.mem_singleton.mp hm]
        show c.name ≠ c'.name
        intro hcontra
        exact hnodup.1 (hcontra ▸ List.mem_map_of_mem (fun x => x.name) hc')
    rw [List.foldl_cons,
      objSet_append init c.name (g c)
        (fun p hp => hdisj c (List.mem_cons_self c cs) p hp),
      ih (init ++ [(c.name, g c)]) hnodup.2 hd]
    simp

/-- C1 (amended): provided the table's column names are pairwise distinct
and none of them is "_rowId" or "_position", getData returns one record
per row — as many records as the table has rows — in ascending position
order, each carrying the row's id and position as metadata fields followed
by one field per column in creation order, mapping the column's name to
the cell's value or null. -/
theorem getData_records (db : DB) (tid : Nat)
    (hnames : ((TableColumn.getByTable db tid).map (fun c => c.name)).Nodup)
    (hrid : "_rowId" ∉ (TableColumn.getByTable db tid).map (fun c => c.name))
    (hpos : "_position" ∉ (TableColumn.getByTable db tid).map (fun c => c.name)) :
    DataTable.getData db tid = (TableRow.getByTable db tid).map (fun row =>
      ("_rowId", Value.num row.id) :: ("_position", Value.num row.position) ::
        (TableColumn.getByTable db tid).map
          (fun c => (c.name, projectCell db row.id c.id))) ∧
    (DataTable.getData db tid).length =
      (db.rows.filter (fun r => r.tableId == tid)).length ∧
    ((TableRow.getByTable db tid).map (fun r => r.position)).Pairwise (· ≤ ·) ∧
    (TableRow.getByTable db tid).Perm
      (db.rows.filter (fun r => r.tableId == tid)) := by
  refine ⟨?_, ?_, ?_, ?_⟩
  · rw [DataTable.getData]
    apply List.map_congr_left
    intro row _
    rw [recordFor, foldl_objSet_of_disjoint _ _ _ hnames ?_]
    · simp
    · intro c hc p hp
      have hcname : c.name ∈ (TableColumn.getByTable db tid).map
          (fun c => c.name) := List.mem_map_of_mem _ hc
      rcases List.mem_cons.mp hp with rfl | hp'
      · show "_rowId" ≠ c.name
        intro h
        exact hrid (h ▸ hcname)
      · rw [List.mem_singleton.mp hp']
        show "_position" ≠ c.name
        intro h
        exact hpos (h ▸ hcname)
  · simp [DataTable.getData, TableRow.getByTable]
  · have hs := @List.sorted_mergeSort RowRec
      (fun a b : RowRec => decide (a.position ≤ b.position))
      (fun a b c hab hbc => by
        simp only [decide_eq_true_eq] at *
        omega)
      (fun a b => by
        simp only [Bool.or_eq_true, decide_eq_true_eq]
        omega)
      (db.rows.filter (fun r => r.tableId == tid))
    rw [TableRow.getByTable]
    exact List.Pairwise.map _
      (fun a b hab => by simpa using hab) hs
  · rw [TableRow.getByTable]
    exact List.mergeSort_perm _ _

/-- Witness for C1's amended statement at a concrete store with one
distinctly named column. -/
theorem getData_records_witness :
    ((TableColumn.getByTable wdb4 1).map (fun c => c.name)).Nodup ∧
    DataTable.getData wdb4 1 = (TableRow.getByTable wdb4 1).map (fun row =>
      ("_rowId", Value.num row.id) :: ("_position", Value.num row.position) ::
        (TableColumn.getByTable wdb4 1).map
          (fun c => (c.name, projectCell wdb4 row.id c.id))) :=
  ⟨by simp [wdb4, wdb3, wdb2, wdb1, CellData.set, TableRow.create,
      TableColumn.create, DataTable.create, DB.empty, TableColumn.getByTable],
   (getData_records wdb4 1
    (by simp [wdb4, wdb3, wdb2, wdb1, CellData.set, TableRow.create,
      TableColumn.create, DataTable.create, DB.empty, TableColumn.getByTable])
    (by simp [wdb4, wdb3, wdb2, wdb1, CellData.set, TableRow.create,
      TableColumn.create, DataTable.create, DB.empty, TableColumn.getByTable])
    (by simp [wdb4, wdb3, wdb2, wdb1, CellData.set, TableRow.create,
      TableColumn.create, DataTable.create, DB.empty, TableColumn.getByTable])).1⟩

/-- A table with two columns that share the name "A" and one row with no
cells, built through the operation surface. -/
def exC1 : DB :=
  (TableRow.create
    ((TableColumn.create
      ((TableColumn.create
        ((DataTable.create DB.empty "T").2) 1 "A" "text" (Value.obj [])).2)
      1 "A" "text" (Value.obj [])).2)
    1 none).2

lemma exC1_rows : TableRow.getByTable exC1 1 =
    [{ id := 1, tableId := 1, position := 0, createdAt := 3 }] := by
  rw [TableRow.getByTable,
    show exC1.rows.filter (fun r => r.tableId == 1) =
      [{ id := 1, tableId := 1, position := 0, createdAt := 3 }] from rfl]
  simp

/-- Counterexample to C1 as stated: on a table with two columns (both
named "A") and one row, the single record of getData has only three
fields — _rowId, _position, and one shared "A" field — not one field per
column; so no record carries one field for each of the two columns. -/
theorem getData_records_counterexample :
    (TableColumn.getByTable exC1 1).length = 2 ∧
    (DataTable.getData exC1 1).map List.length = [3] := by
  refine ⟨rfl, ?_⟩
  rw [DataTable.getData, exC1_rows]
  rfl

lemma lookup_map_overwrite_self (o : List (String × Value)) (k : String)
    (v : Value) (hin : o.any (fun p => p.1 == k) = true) :
    (o.map (fun p => if p.1 == k then (k, v) else p)).lookup k = some v := by
  induction o with
  | nil => simp at hin
  | cons p ps ih =>
    obtain ⟨a, b⟩ := p
    by_cases hp : (a == k) = true
    · rw [List.map_cons, if_pos hp, List.lookup_cons_self]
    · have hin' : ps.any (fun p => p.1 == k) = true := by
        simpa [hp] using hin
      have hkp : (k == a) = false := by
        rw [beq_eq_false_iff_ne]
        intro h
        exact hp (beq_iff_eq.mpr h.symm)
      rw [List.map_cons, if_neg hp, List.lookup_cons, hkp]
      exact ih hin'

lemma lookup_map_overwrite_other (o : List (String × Value)) (k n : String)
    (v : Value) (hne : n ≠ k) :
    (o.map (fun p => if p.1 == k then (k, v) else p)).lookup n =
      o.lookup n := by
  induction o with
  | nil => simp
  | cons p ps ih =>
    obtain ⟨a, b⟩ := p
    by_cases hp : (a == k) = true
    · have hnk : (n == k) = false := beq_eq_false_iff_ne.mpr hne
      have hnp : (n == a) = false := by
        rw [beq_eq_false_iff_ne]
        intro h
        exact hne (h.trans (beq_iff_eq.mp hp))
      rw [List.map_cons, if_pos hp, List.lookup_cons, List.lookup_cons, hnk,
        hnp]
      exact ih
    · rw [List.map_cons, if_neg hp, List.lookup_cons, List.lookup_cons]
      cases hna : n == a
      · exact ih
      · rfl

/-- Field lookup after a JS property assignment: the assigned key reads
the new value, every other key is untouched. -/
lemma lookup_objSet (o : List (String × Value)) (k n : String) (v : Value) :
    (objSet o k v).lookup n = if n = k then some v else o.lookup n := by
  by_cases hin : o.any (fun p => p.1 == k) = true
  · rw [objSet, if_pos hin]
    by_cases hnk : n = k
    · subst hnk
      rw [if_pos rfl, lookup_map_overwrite_self o n v hin]
    · rw [if_neg hnk, lookup_map_overwrite_other o k n v hnk]
  · rw [objSet, if_neg hin]
    rw [List.lookup_append]
    by_cases hnk : n = k
    · subst hnk
      have : o.lookup n = none := by
        rw [List.lookup_eq_none_iff]
        intro p hp
        have := List.any_eq_false.mp (Bool.not_eq_true _ ▸ hin) p hp
        simp only [bne_iff_ne, ne_eq, beq_iff_eq] at this ⊢
        exact fun h => this h.symm
      simp [this, List.lookup_cons]
    · have hnkb : (n == k) = false := beq_eq_false_iff_ne.mpr hnk
      simp [if_neg hnk, List.lookup_cons, hnkb]

/-- Field lookup through the whole assignment fold: the last column with
the looked-up name wins; a name no column carries reads from the initial
metadata fields. -/
lemma lookup_foldl_objSet (g : ColumnRec → Value) (n : String) :
    ∀ (cols : List ColumnRec) (init : List (String × Value)),
      (cols.foldl (fun acc c => objSet acc c.name (g c)) init).lookup n =
        match (cols.filter (fun c => c.name == n)).getLast? with
        | some c => some (g c)
        | none => init.lookup n := by
  intro cols
  induction cols using List.reverseRecOn with
  | nil => intro init; simp
  | append_singleton cs c ih =>
    intro init
    rw [List.foldl_append, List.foldl_cons, List.foldl_nil, lookup_objSet,
      List.filter_append]
    by_cases hc : (c.name == n) = true
    · have : List.filter (fun c => c.name == n) [c] = [c] := by
        simp [hc]
      rw [this, List.getLast?_concat, if_pos (beq_iff_eq.mp hc).symm]
    · have h1 : List.filter (fun c => c.name == n) [c] = [] := by
        simp [hc]
      have h2 : n ≠ c.name := fun h =>
        hc (beq_iff_eq.mpr h.symm)
      rw [h1, List.append_nil, if_neg h2, ih]

lemma keys_objSet_nodup (o : List (String × Value)) (k : String) (v : Value)
    (h : (o.map Prod.fst).Nodup) : ((objSet o k v).map Prod.fst).Nodup := by
  by_cases hin : o.any (fun p => p.1 == k) = true
  · rw [objSet, if_pos hin]
    have : (Prod.fst ∘ fun p : String × Value =>
        if p.1 == k then (k, v) else p) = Prod.fst := by
      funext p
      by_cases hp : (p.1 == k) = true
      · show (if (p.1 == k) = true then (k, v) else p).1 = p.1
        rw [if_pos hp]
        exact (beq_iff_eq.mp hp).symm
      · show (if (p.1 == k) = true then (k, v) else p).1 = p.1
        rw [if_neg hp]
    rw [List.map_map, this]
    exact h
  · rw [objSet, if_neg hin]
    rw [List.map_append]
    rw [List.nodup_append]
    refine ⟨h, by simp, ?_⟩
    intro a ha hb
    obtain ⟨p, hp, rfl⟩ := List.mem_map.mp ha
    have hk : p.1 = k := by simpa using hb
    have := List.any_eq_false.mp (Bool.not_eq_true _ ▸ hin) p hp
    simp [hk] at this

lemma keys_foldl_objSet_nodup (g : ColumnRec → Value) :
    ∀ (cols : List ColumnRec) (init : List (String × Value)),
      (init.map Prod.fst).Nodup →
      ((cols.foldl (fun acc c => objSet acc c.name (g c)) init).map
        Prod.fst).Nodup := by
  intro cols
  induction cols with
  | nil => intro init h; simpa using h
  | cons c cs ih =>
    intro init h
    rw [List.foldl_cons]
    exact ih _ (keys_objSet_nodup init c.name (g c) h)

/-- C10: each getData record is assembled by writing the _rowId and
_position metadata fields first and then assigning one field per column in
iteration order; keys stay unique, the last column with a given name
determines that field (even when the name is "_rowId" or "_position", in
which case the cell value or null overwrites the metadata), and the
_rowId metadata survives exactly when no column is named "_rowId". -/
theorem getData_record_assembly (db : DB) (tid : Nat) :
    DataTable.getData db tid = (TableRow.getByTable db tid).map
      (recordFor db (TableColumn.getByTable db tid)) ∧
    (∀ row : RowRec,
      ((recordFor db (TableColumn.getByTable db tid) row).map
        Prod.fst).Nodup) ∧
    (∀ row : RowRec, ∀ n : String, ∀ c : ColumnRec,
      ((TableColumn.getByTable db tid).filter
        (fun x => x.name == n)).getLast? = some c →
      (recordFor db (TableColumn.getByTable db tid) row).lookup n =
        some (projectCell db row.id c.id)) ∧
    (∀ row : RowRec,
      (∀ c ∈ TableColumn.getByTable db tid, c.name ≠ "_rowId") →
      (recordFor db (TableColumn.getByTable db tid) row).lookup "_rowId" =
        some (Value.num row.id)) := by
  refine ⟨rfl, ?_, ?_, ?_⟩
  · intro row
    apply keys_foldl_objSet_nodup
    simp
  · intro row n c hc
    rw [recordFor,
      lookup_foldl_objSet (fun c => projectCell db row.id c.id) n, hc]
  · intro row hnone
    rw [recordFor,
      lookup_foldl_objSet (fun c => projectCell db row.id c.id) "_rowId"]
    have hnil : (TableColumn.getByTable db tid).filter
        (fun c => c.name == "_rowId") = [] :=
      List.filter_eq_nil_iff.mpr (fun c hcm => by simpa using hnone c hcm)
    rw [hnil]
    simp

/-- Witness for C10 at the concrete store exC1: the record field "A" holds
the projection of the later of the two same-named columns. -/
theorem getData_record_assembly_witness :
    (((TableColumn.getByTable exC1 1).filter
        (fun x => x.name == "A")).getLast? =
      some { id := 2, tableId := 1, name := "A", type := "text",
             options := Value.obj [], createdAt := 2 }) ∧
    (recordFor exC1 (TableColumn.getByTable exC1 1)
        { id := 1, tableId := 1, position := 0, createdAt := 3 }).lookup "A" =
      some (projectCell exC1 1 2) :=
  ⟨rfl, (getData_record_assembly exC1 1).2.2.1
    { id := 1, tableId := 1, position := 0, createdAt := 3 } "A"
    { id := 2, tableId := 1, name := "A", type := "text",
      options := Value.obj [], createdAt := 2 } rfl⟩
